import Mathlib

/-!
Shallow embedding of `multilevelcli/multilevelcli.py` (a multi-level CLI
argument parser) and proofs about the claims of its specification.

Conventions of the embedding:
* Python strings are `String`, Python `None`-able values are `Option _`.
* Python dictionaries (which preserve insertion order) are association lists
  `PyDict α := List (String × α)`; `dictSet` mirrors `dict.__setitem__`
  (replace in place, else append) and `dictGet?` mirrors key lookup.
* Python exceptions are modelled with `Except`; the exception classes of the
  source become the constructors of `PErr`.  Raw (non-`ParseExecption`)
  Python exceptions that can escape the parser are modelled too
  (`pyIndexError`, `pyValueError`, `pyKeyError`).
* The mutable `CliResult` object is threaded explicitly; since Python
  exceptions leave the mutated object behind at the caller, errors carry the
  `CliResult` as mutated so far: `Except (PErr × CliResult) _`.
* Loops (`while i < len(tokens)`) and the recursive descent over the
  declaration tree are written as structural recursion on an explicit fuel
  counter; top-level entry points supply ample fuel (cf. Python's own
  recursion limit), and `fuelOut` is never reached in any run appearing in a
  theorem below.
-/

namespace MLCli

/-- Exception taxonomy of the source module.  `parseError` is the base
`ParseExecption` (tokenizer unbalance, `init_level` violations); the other
named constructors are its subclasses.  `pyIndexError` / `pyValueError` /
`pyKeyError` model raw Python exceptions that escape the parser uncaught;
`fuelOut` is the fuel-exhaustion artifact of the embedding. -/
inductive PErr where
  | parseError
  | optionNotFound
  | optionNoParam
  | argumentTypeError
  | argumentKeyError
  | noCommand
  | commandMissingArguments
  | helpRequired
  | unknownToken
  | pyIndexError
  | pyValueError
  | pyKeyError
  | fuelOut
deriving DecidableEq, Repr

/-- Python `str.isspace()` for the ASCII whitespace characters. -/
def pyIsSpace (c : Char) : Bool :=
  c == ' ' || c == '\t' || c == '\n' || c == '\r' ||
  c == Char.ofNat 11 || c == Char.ofNat 12

/-- Drop characters satisfying `p` from both ends of a character list. -/
def stripBoth (p : Char → Bool) (l : List Char) : List Char :=
  ((l.dropWhile p).reverse.dropWhile p).reverse

/-- Python `str.strip()` (whitespace from both ends). -/
def pyStripWs (s : String) : String :=
  String.mk (stripBoth pyIsSpace s.toList)

/-- `MultiLevelCliBase.strip`: `s.strip("\"'").strip()` — first strip quote
characters from both ends, then whitespace. -/
def mstrip (s : String) : String :=
  String.mk (stripBoth pyIsSpace (stripBoth (fun c => c == '"' || c == '\'') s.toList))

/-- Python `str.startswith` on character lists (kernel-reducible, unlike
`String.startsWith`). -/
def strHasPref (s p : String) : Bool := p.toList.isPrefixOf s.toList

/-- Python `str.endswith` on character lists. -/
def strHasSuffix (s p : String) : Bool :=
  p.toList.reverse.isPrefixOf s.toList.reverse

/-- Decimal digits to a natural number; `none` if empty or non-digit. -/
def digitsToNat (ds : List Char) : Option Nat :=
  if ds ≠ [] ∧ ds.all (·.isDigit) then
    some (ds.foldl (fun a c => a * 10 + (c.toNat - 48)) 0)
  else none

/-- Python `int(s)`: strip surrounding whitespace, optional sign, decimal
digits; `none` models the `ValueError` raise. -/
def pyInt (s : String) : Option Int :=
  match stripBoth pyIsSpace s.toList with
  | '+' :: ds => (digitsToNat ds).map Int.ofNat
  | '-' :: ds => (digitsToNat ds).map (fun n => -(Int.ofNat n))
  | ds => (digitsToNat ds).map Int.ofNat

/-- State of the single left-to-right scan of `MultiLevelCliBase.tokenize`:
the emitted tokens, the stack of close markers of currently open groups
(`groups`, top at the head; the Python list keeps the top at the end), the
active quote character, the accumulating buffer and the escape flag. -/
structure TokState where
  tokens : List String
  groups : List Char
  quoted : Option Char
  cur : String
  escape : Bool
deriving DecidableEq, Repr

/-- Initial tokenizer state. -/
def TokState.init : TokState := ⟨[], [], none, "", false⟩

/-- The fixed close-marker map `ends = { '[' : ']', '{' : '}' }`; `none`
models the `KeyError` a non-default grouping character would raise. -/
def groupEnds (c : Char) : Option Char :=
  if c == '[' then some ']' else if c == '{' then some '}' else none

/-- One character step of `MultiLevelCliBase.tokenize`, mirroring the branch
order of the source: escape flag, escape char, quote toggle, inside quote,
group open, group close, separator flush, plain append.  Note that the
escape character itself is appended to the buffer (`cur += c`) before the
escape flag is set, and that a flush whose stripped token is empty leaves
the buffer untouched (`continue` without `cur = ""`). -/
def tokStep (sep : Option (List Char)) (grouping escaping quoting : List Char)
    (st : TokState) (c : Char) : Except PErr TokState :=
  if st.escape then
    .ok { st with cur := st.cur.push c, escape := false }
  else if c ∈ escaping then
    .ok { st with cur := st.cur.push c, escape := true }
  else if c ∈ quoting ∧ st.groups = [] then
    let q := if st.quoted = some c then none
             else if st.quoted = none then some c
             else st.quoted
    .ok { st with quoted := q, cur := st.cur.push c }
  else if st.quoted.isSome then
    .ok { st with cur := st.cur.push c }
  else if c ∈ grouping ∧ c ∉ st.groups then
    match groupEnds c with
    | some e => .ok { st with groups := e :: st.groups, cur := st.cur.push c }
    | none => .error .pyKeyError
  else if st.groups.head? = some c then
    .ok { st with groups := st.groups.tail, cur := st.cur.push c }
  else if st.groups = [] ∧ (match sep with
      | none => pyIsSpace c
      | some l => decide (c ∈ l)) = true then
    let token := pyStripWs st.cur
    if token = "" then .ok st
    else .ok { st with tokens := st.tokens ++ [token], cur := "" }
  else
    .ok { st with cur := st.cur.push c }

/-- The character scan of `tokenize`: fold `tokStep` over the input. -/
def tokScan (sep : Option (List Char)) (grouping escaping quoting : List Char)
    (s : String) : Except PErr TokState :=
  s.toList.foldlM (tokStep sep grouping escaping quoting) TokState.init

/-- `MultiLevelCliBase.tokenize`: scan, flush the remaining buffer, then fail
if any group or quote is left open. -/
def tokenize (s : String) (sep : Option (List Char))
    (grouping escaping quoting : List Char) : Except PErr (List String) := do
  let st ← tokScan sep grouping escaping quoting s
  let toks :=
    if st.cur ≠ "" then
      let token := pyStripWs st.cur
      if token ≠ "" then st.tokens ++ [token] else st.tokens
    else st.tokens
  if st.groups ≠ [] then .error .parseError
  else if st.quoted.isSome then .error .parseError
  else .ok toks

/-- Default grouping characters `['[', '{']`. -/
def defGrouping : List Char := ['[', '{']

/-- Default escaping characters `['\\']`. -/
def defEscaping : List Char := ['\\']

/-- Default quoting characters `['"', '\'']`. -/
def defQuoting : List Char := ['"', '\'']

/-- `tokenize` with all default parameters (whitespace separators). -/
def tokenizeDef (s : String) : Except PErr (List String) :=
  tokenize s none defGrouping defEscaping defQuoting

/-- `tokStep` with the default grouping/escaping/quoting parameters and a
given separator set. -/
def tokStepDef (sep : Option (List Char)) (st : TokState) (c : Char) :
    Except PErr TokState :=
  tokStep sep defGrouping defEscaping defQuoting st c

/-- Python runtime values the parser produces: `None`, booleans, integers,
strings, lists and `Namespace` objects (structs). -/
inductive Value where
  | VNone
  | VBool (b : Bool)
  | VInt (n : Int)
  | VStr (s : String)
  | VList (l : List Value)
  | VNs (d : List (String × Value))

/-- Insertion-ordered string-keyed dictionary, as Python's `dict` /
`Namespace.__dict__`. -/
abbrev PyDict (α : Type) := List (String × α)

/-- A `Namespace.__dict__`. -/
abbrev Namespace := PyDict Value

/-- `dict.__setitem__`: replace the value in place if the key exists,
otherwise append at the end. -/
def dictSet {α : Type} : PyDict α → String → α → PyDict α
  | [], k, v => [(k, v)]
  | (k', v') :: rest, k, v =>
    if k' = k then (k, v) :: rest else (k', v') :: dictSet rest k v

/-- Dictionary key lookup. -/
def dictGet? {α : Type} : PyDict α → String → Option α
  | [], _ => none
  | (k', v') :: rest, k => if k' = k then some v' else dictGet? rest k

/-- Python truthiness of a value.  A `Namespace` instance is always truthy:
the class defines neither `__bool__` nor `__len__`, so CPython falls back to
the default object truthiness. -/
def pyTruthy : Value → Bool
  | .VNone => false
  | .VBool b => b
  | .VInt n => n != 0
  | .VStr s => s ≠ ""
  | .VList l => !l.isEmpty
  | .VNs _ => true

/-- Python `not x` (used by `OptionType._parse` on the flag default:
`val = not self.default`, where a missing default is `None`). -/
def pyNot (d : Option Value) : Value :=
  match d with
  | none => .VBool true
  | some v => .VBool (!pyTruthy v)

/-- Truthiness of a whole `Namespace` object, as used by
`Namespace.__getitem__`'s `if not ns: return None`.  The class defines
neither `__bool__` nor `__len__`, so every instance — even one with an empty
`__dict__` — is truthy; this is why the `return None` branch of the source
is dead code. -/
def namespaceTruthy (_ : Namespace) : Bool := true

/-- `Namespace.__getitem__`: direct hit, else build the sub-namespace of all
keys sharing the `item.` lead segment; the `if not ns: return None` branch
is kept, guarded by the (constant) object truthiness. -/
def nsGetItem (d : Namespace) (item : String) : Value :=
  match dictGet? d item with
  | some v => v
  | none =>
    let pref := item ++ "."
    let sub := d.filterMap (fun kv =>
      if strHasPref kv.1 pref then some (kv.1.drop pref.length, kv.2) else none)
    if namespaceTruthy sub then .VNs sub else .VNone

/-- The resolved argument/option value types: scalar conversions (`int`,
`str`), `ListType` (homogeneous element type) and `StructType` (field-name
to field-type map), arbitrarily nested — the shape produced by
`MultiLevelCliBase.nested_type` at declaration time. -/
inductive ArgTy where
  | sInt
  | sStr
  | list (elem : ArgTy)
  | struct (fields : List (String × ArgTy))

/-- An option declaration (`MultiLevelCliBase.OptionType`): optional short
and long names, the resolved target `name`, the optional value type (`none`
means a boolean flag) and the optional default.  The constructor assertion
`default is None or type(default) == opttype` forces `default = none`
whenever `argtype = none`. -/
structure OptionDecl where
  short : Option String
  long : Option String
  name : String
  argtype : Option ArgTy
  default : Option Value

/-- A positional argument declaration of a command. -/
structure ArgDecl where
  name : String
  ty : ArgTy

/-- The `CliResult` accumulator.  `command` / `group` keep the identifying
data of the matched nodes (the source stores object references); the unused
`__command_arguments` list of the source is not modelled (it is written but
never read). -/
structure CliResult where
  command : Option String
  commandOptions : PyDict OptionDecl
  group : Option (String × Bool)
  ns : Namespace
  argsNs : Namespace
  levelsNs : List Namespace
  maxLevel : Nat
  leftTokens : List String

/-- A fresh `CliResult`: one (empty) level namespace, level 0. -/
def CliResult.init : CliResult := ⟨none, [], none, [], [], [[]], 0, []⟩

/-- `CliResult.__setitem__` — write into the unified namespace. -/
def CliResult.setU (cli : CliResult) (k : String) (v : Value) : CliResult :=
  { cli with ns := dictSet cli.ns k v }

/-- `CliResult.set_group` (stores the group's full path and whether it has a
no-command handler). -/
def CliResult.set_group (cli : CliResult) (path : String) (dfl : Bool) : CliResult :=
  { cli with group := some (path, dfl) }

/-- `CliResult.set_command` (stores the command's full path). -/
def CliResult.set_command (cli : CliResult) (path : String) : CliResult :=
  { cli with command := some path }

/-- `CliResult.add_command_arg`: record an argument value in the
arguments-only namespace. -/
def CliResult.add_command_arg (cli : CliResult) (name : String) (v : Value) : CliResult :=
  { cli with argsNs := dictSet cli.argsNs name v }

/-- `CliResult.set_unparsed_tokens`. -/
def CliResult.set_unparsed_tokens (cli : CliResult) (toks : List String) : CliResult :=
  { cli with leftTokens := toks }

/-- Replace the element at an index (in-range only), used for the in-place
update `self.__levels_ns[level][name] = val`. -/
def modifyAt {α : Type} : List α → Nat → (α → α) → List α
  | [], _, _ => []
  | x :: rest, 0, f => f x :: rest
  | x :: rest, n + 1, f => x :: modifyAt rest n f

/-- `CliResult.init_level`: a level more than one beyond the highest
initialized level is a structural `ParseExecption`; a level exactly one
beyond appends a fresh per-level namespace. -/
def CliResult.init_level (cli : CliResult) (level : Nat) :
    Except (PErr × CliResult) CliResult :=
  if level > cli.maxLevel + 1 then .error (.parseError, cli)
  else if level > cli.maxLevel then
    .ok { cli with levelsNs := cli.levelsNs ++ [[]], maxLevel := cli.maxLevel + 1 }
  else .ok cli

/-- `CliResult.set_command_options`: guard the level, then record the option
object and write the value into that level's namespace. -/
def CliResult.set_command_options (cli : CliResult) (level : Nat) (name : String)
    (opt : OptionDecl) (val : Value) : Except (PErr × CliResult) CliResult :=
  if level > cli.maxLevel then .error (.parseError, cli)
  else .ok { cli with
    commandOptions := dictSet cli.commandOptions name opt,
    levelsNs := modifyAt cli.levelsNs level (fun d => dictSet d name val) }

/-- `CliResult.ns(level)` — the per-level namespace (list indexing). -/
def CliResult.levelNs (cli : CliResult) (level : Nat) : Namespace :=
  (cli.levelsNs.get? level).getD []

mutual

/-- `ListType._parse`, reduced to the produced value (the nested `CliResult`
of the source only serves to extract `nested.args()[name]`).  Frame check
`[...]`, then tokenize the interior on `,` and convert every element. -/
def listParse : Nat → ArgTy → String → Except PErr Value
  | 0, _, _ => .error .fuelOut
  | f + 1, ety, tok =>
    let s := pyStripWs tok
    if !(strHasPref s "[" && strHasSuffix s "]") then .error .argumentTypeError
    else do
      let inner := (s.drop 1).dropRight 1
      let args ← tokenize inner (some [',']) defGrouping defEscaping defQuoting
      let vs ← listElems f ety args
      .ok (.VList vs)

/-- Element loop of `ListType._parse`: nested `ListType`/`StructType`
elements recurse on the raw sub-token; scalar elements convert
`(self.argtype)(strip(arg))`, any non-`ParseExecption` failure becoming an
`ArgumentTypeError`. -/
def listElems : Nat → ArgTy → List String → Except PErr (List Value)
  | _, _, [] => .ok []
  | 0, _, _ :: _ => .error .fuelOut
  | f + 1, ety, a :: rest => do
    let v ← (match ety with
      | .sInt =>
        match pyInt (mstrip a) with
        | some n => .ok (Value.VInt n)
        | none => .error PErr.argumentTypeError
      | .sStr => .ok (Value.VStr (mstrip a))
      | .list e2 => listParse f e2 a
      | .struct fs => structParse f fs a)
    let vs ← listElems f ety rest
    .ok (v :: vs)

/-- `StructType._parse`, reduced to the produced value.  Frame check
`{...}`, tokenize the interior on `,`, then process each `key=value`
piece. -/
def structParse : Nat → List (String × ArgTy) → String → Except PErr Value
  | 0, _, _ => .error .fuelOut
  | f + 1, fields, tok =>
    let s := pyStripWs tok
    if !(strHasPref s "\x7b" && strHasSuffix s "\x7d") then .error .argumentTypeError
    else do
      let inner := (s.drop 1).dropRight 1
      let pieces ← tokenize inner (some [',']) defGrouping defEscaping defQuoting
      let d ← structPieces f fields pieces []
      .ok (.VNs d)

/-- Piece loop of `StructType._parse`: re-tokenize the piece on `=`; a piece
that does not split into exactly two parts is an `ArgumentTypeError`; a key
not in the declared field map is an `ArgumentKeyError`; the value is parsed
through the field's type (`(self.argtype[k])(str(arg).strip())` for
scalars). -/
def structPieces : Nat → List (String × ArgTy) → List String → Namespace →
    Except PErr Namespace
  | _, _, [], acc => .ok acc
  | 0, _, _ :: _, _ => .error .fuelOut
  | f + 1, fields, p :: rest, acc => do
    let keyval ← tokenize p (some ['=']) defGrouping defEscaping defQuoting
    match keyval with
    | [kRaw, vRaw] =>
      let k := mstrip kRaw
      match dictGet? fields k with
      | none => .error .argumentKeyError
      | some fty =>
        let argv := mstrip vRaw
        let v ← (match fty with
          | .sInt =>
            match pyInt (pyStripWs argv) with
            | some n => .ok (Value.VInt n)
            | none => .error PErr.argumentTypeError
          | .sStr => .ok (Value.VStr (pyStripWs argv))
          | .list e2 => listParse f e2 argv
          | .struct fs2 => structParse f fs2 argv)
        structPieces f fields rest (dictSet acc k v)
    | _ => .error .argumentTypeError

end

/-- Seed value of an option in `ParseBase.set_defaults`:
`o.default if (o.argtype is not None or o.default is not None) else False`
(a missing default of a typed option seeds Python `None`). -/
def seedVal (o : OptionDecl) : Value :=
  if o.argtype.isSome || o.default.isSome then o.default.getD .VNone
  else .VBool false

/-- First loop of `set_defaults`: every option with a long name is seeded in
both the unified namespace (full path + target name) and the per-level
namespace. -/
def seedLongs (lvl : Nat) (path : String) :
    List OptionDecl → CliResult → Except (PErr × CliResult) CliResult
  | [], cli => .ok cli
  | o :: rest, cli => do
    let cli := cli.setU (path ++ o.name) (seedVal o)
    let cli ← cli.set_command_options lvl o.name o (seedVal o)
    seedLongs lvl path rest cli

/-- Second loop of `set_defaults`: options that have only a short name are
seeded only when `o.default is not None`. -/
def seedShortOnly (lvl : Nat) (path : String) :
    List OptionDecl → CliResult → Except (PErr × CliResult) CliResult
  | [], cli => .ok cli
  | o :: rest, cli =>
    if o.default.isSome then do
      let cli := cli.setU (path ++ o.name) (seedVal o)
      let cli ← cli.set_command_options lvl o.name o (seedVal o)
      seedShortOnly lvl path rest cli
    else seedShortOnly lvl path rest cli

/-- `ParseBase.set_defaults`: initialize the level, seed the long-named
options, then the short-only ones.  The source's `self.longoptions.values()`
is the declaration-ordered sublist of options having a long name, and its
second loop (`options.values()` minus `longoptions.values()`) is the sublist
having a short but no long name. -/
def set_defaults (lvl : Nat) (path : String) (opts : List OptionDecl)
    (cli : CliResult) : Except (PErr × CliResult) CliResult := do
  let cli ← cli.init_level lvl
  let cli ← seedLongs lvl path (opts.filter (fun o => o.long.isSome)) cli
  seedShortOnly lvl path (opts.filter (fun o => o.short.isSome && o.long.isNone)) cli

/-- `OptionType._parse`.  For a typed option, `tokens[0]` of an empty list
raises a raw `IndexError` (there is no guard in this frame); scalar
conversion failures raise a raw `ValueError` (also unguarded here); nested
`ListType`/`StructType` values go through their `_parse` and the produced
value is read back from the nested result.  An untyped flag records
`not self.default`.  Returns the number of consumed tokens (2 for typed, 1
for a flag). -/
def OptionType.parse (f : Nat) (opt : OptionDecl) (level : Nat) (path : String)
    (cli : CliResult) (tokens : List String) :
    Except (PErr × CliResult) (CliResult × Nat) :=
  let var := path ++ opt.name
  match opt.argtype with
  | some ty =>
    match tokens with
    | [] => .error (.pyIndexError, cli)
    | t0 :: _ => do
      let v ← (match ty with
        | .sInt =>
          match pyInt (mstrip t0) with
          | some n => Except.ok (Value.VInt n)
          | none => Except.error (PErr.pyValueError, cli)
        | .sStr => Except.ok (Value.VStr (mstrip t0))
        | .list e2 =>
          match listParse f e2 t0 with
          | .ok v => Except.ok v
          | .error e => Except.error (e, cli)
        | .struct fs =>
          match structParse f fs t0 with
          | .ok v => Except.ok v
          | .error e => Except.error (e, cli))
      let cli := cli.setU var v
      let cli ← cli.set_command_options level opt.name opt v
      .ok (cli, 2)
  | none =>
    let v := pyNot opt.default
    let cli := cli.setU var v
    do
      let cli ← cli.set_command_options level opt.name opt v
      .ok (cli, 1)

/-- `ParseBase.parse_option`: look the name up in the long- or short-option
map (`OptionNotFound` on a miss); the `OptionNoParam` guard tests the token
slice that still contains the option token itself; then run the option's
`_parse` on `tokens[1:]`, and afterwards — when this owner declares a help
handler — invoke it (modelled as the conventional
`usage_and_raise_help`, i.e. a `HelpRquired` raise) if the per-level
`help` entry is truthy. -/
def parse_option (f : Nat) (opts : List OptionDecl) (level : Nat) (path : String)
    (helpfn : Bool) (cli : CliResult) (optname : String) (tokens : List String)
    (lng : Bool) : Except (PErr × CliResult) (CliResult × Nat) :=
  match (if lng then opts.find? (fun o => o.long == some optname)
         else opts.find? (fun o => o.short == some optname)) with
  | none => .error (.optionNotFound, cli)
  | some opt =>
    if opt.argtype.isSome && tokens.isEmpty then .error (.optionNoParam, cli)
    else do
      let (cli, n) ← OptionType.parse f opt level path cli tokens.tail
      if helpfn && pyTruthy (nsGetItem (cli.levelNs level) "help") then
        .error (.helpRequired, cli)
      else .ok (cli, n)

/-- `ArgType._parse` (and the `ListType`/`StructType` overrides) as invoked
on a command's positional argument: convert the token, record the value
under the command's full path in the unified namespace and in the
arguments-only namespace, and consume one token.  For the scalar base class
every failure is wrapped into `ArgumentTypeError`; the overrides re-raise
`ParseExecption` subclasses unchanged. -/
def ArgType.parseArg (f : Nat) (a : ArgDecl) (path : String) (cli : CliResult)
    (tok : String) : Except (PErr × CliResult) (CliResult × Nat) :=
  let record := fun (v : Value) =>
    let cli := cli.setU (path ++ a.name) v
    let cli := cli.add_command_arg a.name v
    Except.ok (cli, 1)
  match a.ty with
  | .sInt =>
    match pyInt (mstrip tok) with
    | some n => record (.VInt n)
    | none => .error (.argumentTypeError, cli)
  | .sStr => record (.VStr (mstrip tok))
  | .list e2 =>
    match listParse f e2 tok with
    | .ok v => record v
    | .error e => .error (e, cli)
  | .struct fs =>
    match structParse f fs tok with
    | .ok v => record v
    | .error e => .error (e, cli)

/-- A command declaration (`MultiLevelCliBase.CommandType`): name, depth,
full dotted path with trailing separator (`full_name(".", lastsep=True)`),
options, ordered positional arguments, and whether a help handler is
attached. -/
structure CommandD where
  name : String
  level : Nat
  path : String
  opts : List OptionDecl
  args : List ArgDecl
  helpfn : Bool

/-- A group declaration (`MultiLevelCliBase.GroupType`): like a command but
with child groups and child commands instead of arguments, plus the
no-command handler flag (`defaultfn`). -/
inductive GroupD where
  | mk (name : String) (level : Nat) (path : String) (opts : List OptionDecl)
       (helpfn : Bool) (defaultfn : Bool) (groups : List GroupD)
       (cmds : List CommandD)

/-- Group field accessor. -/
def GroupD.name : GroupD → String
  | .mk n _ _ _ _ _ _ _ => n

/-- Group field accessor. -/
def GroupD.level : GroupD → Nat
  | .mk _ l _ _ _ _ _ _ => l

/-- Group field accessor. -/
def GroupD.path : GroupD → String
  | .mk _ _ p _ _ _ _ _ => p

/-- Group field accessor. -/
def GroupD.opts : GroupD → List OptionDecl
  | .mk _ _ _ o _ _ _ _ => o

/-- Group field accessor. -/
def GroupD.helpfn : GroupD → Bool
  | .mk _ _ _ _ h _ _ _ => h

/-- Group field accessor. -/
def GroupD.defaultfn : GroupD → Bool
  | .mk _ _ _ _ _ d _ _ => d

/-- Group field accessor. -/
def GroupD.groups : GroupD → List GroupD
  | .mk _ _ _ _ _ _ g _ => g

/-- Group field accessor. -/
def GroupD.cmds : GroupD → List CommandD
  | .mk _ _ _ _ _ _ _ c => c

/-- Token scan of `CommandType._parse` (the `while i < len(tokens)` loop):
`--`-tokens and `-`-tokens go through `parse_option`; otherwise, while
positional arguments remain unbound, bind the token to the next argument;
otherwise the token is unknown (record the remaining slice as unparsed and
raise).  Returns the updated result, the number of bound arguments and the
number of consumed tokens. -/
def cmdScan : Nat → CommandD → CliResult → Nat → List String →
    Except (PErr × CliResult) (CliResult × Nat × Nat)
  | 0, _, cli, _, _ => .error (.fuelOut, cli)
  | _ + 1, _, cli, argnum, [] => .ok (cli, argnum, 0)
  | f + 1, c, cli, argnum, t :: rest =>
    if strHasPref t "--" then do
      let (cli, n) ← parse_option f c.opts c.level c.path c.helpfn cli (t.drop 2)
        (t :: rest) true
      let (cli, an, m) ← cmdScan f c cli argnum (rest.drop (n - 1))
      .ok (cli, an, n + m)
    else if strHasPref t "-" then do
      let (cli, n) ← parse_option f c.opts c.level c.path c.helpfn cli (t.drop 1)
        (t :: rest) false
      let (cli, an, m) ← cmdScan f c cli argnum (rest.drop (n - 1))
      .ok (cli, an, n + m)
    else match c.args.get? argnum with
      | some a => do
        let (cli, n) ← ArgType.parseArg f a c.path cli t
        let (cli, an, m) ← cmdScan f c cli (argnum + 1) (rest.drop (n - 1))
        .ok (cli, an, n + m)
      | none => .error (.unknownToken, cli.set_unparsed_tokens (t :: rest))

/-- `CommandType._parse`: set this command's defaults, register it as the
matched command, scan the tokens, and finally fail with
`CommandMissingArguments` if fewer arguments were bound than declared.  The
returned count includes one for the command's own name token. -/
def CommandType.parse (f : Nat) (c : CommandD) (cli : CliResult)
    (tokens : List String) : Except (PErr × CliResult) (CliResult × Nat) := do
  let cli ← set_defaults c.level c.path c.opts cli
  let cli := cli.set_command c.path
  let (cli, argnum, i) ← cmdScan f c cli 0 tokens
  if argnum < c.args.length then .error (.commandMissingArguments, cli)
  else .ok (cli, 1 + i)

/-- Token scan of `GroupType._parse`: options first, then child groups, then
child commands, by that order; anything else is an unknown token (record the
remaining slice as unparsed and raise).  A child group's `_parse`
(register the group, set its defaults, scan its tokens, count one extra for
its name token) is written inline in the descent branch so that the
recursion is structural on the fuel counter; `GroupType.parse` below is the
same body for top-level entry. -/
def grpScan : Nat → GroupD → CliResult → List String →
    Except (PErr × CliResult) (CliResult × Nat)
  | 0, _, cli, _ => .error (.fuelOut, cli)
  | _ + 1, _, cli, [] => .ok (cli, 0)
  | f + 1, g, cli, t :: rest =>
    if strHasPref t "--" then do
      let (cli, n) ← parse_option f g.opts g.level g.path g.helpfn cli (t.drop 2)
        (t :: rest) true
      let (cli, m) ← grpScan f g cli (rest.drop (n - 1))
      .ok (cli, n + m)
    else if strHasPref t "-" then do
      let (cli, n) ← parse_option f g.opts g.level g.path g.helpfn cli (t.drop 1)
        (t :: rest) false
      let (cli, m) ← grpScan f g cli (rest.drop (n - 1))
      .ok (cli, n + m)
    else match g.groups.find? (fun x => x.name == t) with
      | some child => do
        let cli := cli.set_group child.path child.defaultfn
        let cli ← set_defaults child.level child.path child.opts cli
        let (cli, ic) ← grpScan f child cli rest
        let n := 1 + ic
        let (cli, m) ← grpScan f g cli (rest.drop (n - 1))
        .ok (cli, n + m)
      | none =>
        match g.cmds.find? (fun x => x.name == t) with
        | some child => do
          let (cli, n) ← CommandType.parse f child cli rest
          let (cli, m) ← grpScan f g cli (rest.drop (n - 1))
          .ok (cli, n + m)
        | none => .error (.unknownToken, cli.set_unparsed_tokens (t :: rest))

/-- `GroupType._parse`: register this group as current, set its defaults,
scan the tokens; the returned count includes one for the group's own name
token. -/
def GroupType.parse (f : Nat) (g : GroupD) (cli : CliResult)
    (tokens : List String) : Except (PErr × CliResult) (CliResult × Nat) := do
  let cli := cli.set_group g.path g.defaultfn
  let cli ← set_defaults g.level g.path g.opts cli
  let (cli, i) ← grpScan f g cli tokens
  .ok (cli, 1 + i)

/-- `MultiLevelArgParse.parse` on a pre-split token list: run the root
group's `_parse`; in partial mode an `UnknownToken` raise is swallowed (the
mutated result object is kept — Python mutates `cli` in place); finally, if
no command was matched, the last visited group's no-command handler runs
(modelled as the conventional `raise_no_command`, i.e. a `NoCommand`
raise). -/
def MultiLevelArgParse.parse (root : GroupD) (tokens : List String)
    (part : Bool) : Except (PErr × CliResult) CliResult :=
  let finish : CliResult → Except (PErr × CliResult) CliResult := fun cli =>
    if cli.command.isNone then
      match cli.group with
      | some (_, true) => .error (.noCommand, cli)
      | _ => .ok cli
    else .ok cli
  match GroupType.parse (tokens.length + 100) root CliResult.init tokens with
  | .ok (cli, _) => finish cli
  | .error (e, cli) =>
    if part ∧ e = .unknownToken then finish cli else .error (e, cli)

/-- Projection to the raised error kind of a parse outcome. -/
def errOf {α : Type} : Except (PErr × CliResult) α → Option PErr
  | .error (e, _) => some e
  | .ok _ => none

/-- The implicit `-h` and `--help` option added by `ParseBase.__init__` whenever a
help handler is attached (`self.add_option("h", "help", ...)`). -/
def helpOpt : OptionDecl := ⟨some "h", some "help", "help", none, none⟩

/-- The demo root's `-t` and `--treelevels` option: typed `int`, default `7`
(`cli.add_option("t", "treelevels", type=int, default=7, ...)`). -/
def treelevelsOpt : OptionDecl :=
  ⟨some "t", some "treelevels", "treelevels", some .sInt, some (.VInt 7)⟩

/-- A root group as `MultiLevelArgParse` builds it (help handler always
attached, hence `helpOpt`), carrying the typed `treelevels` option. -/
def demoRoot : GroupD := .mk "prog" 0 "" [helpOpt, treelevelsOpt] true true [] []

/-- A plain positional token: does not look like an option. -/
def isPlain (t : String) : Bool :=
  !(strHasPref t "--") && !(strHasPref t "-")

/-- A positional string-typed argument declaration. -/
def strArg (nm : String) : ArgDecl := ⟨nm, .sStr⟩

/-- A command `run` with string-typed positional arguments named by
`argNames` (commands get the implicit help option). -/
def c5cmd (argNames : List String) : CommandD :=
  ⟨"run", 1, "run.", [helpOpt], argNames.map strArg, true⟩

/-- A root group owning only the command `run` of `c5cmd`. -/
def c5root (argNames : List String) : GroupD :=
  .mk "prog" 0 "" [helpOpt] true true [] [c5cmd argNames]

/-- An untyped flag option `-f` and `--flag` with no default. -/
def flagOpt : OptionDecl := ⟨some "f", some "flag", "flag", none, none⟩

/-- A command `run` carrying only the flag option (no help handler, like a
command declared with `help=None`). -/
def flagCmd : CommandD := ⟨"run", 1, "run.", [flagOpt], [], false⟩

/-- A root group owning only `flagCmd`. -/
def flagRoot : GroupD := .mk "prog" 0 "" [helpOpt] true true [] [flagCmd]

/-- A short-only untyped flag option with no default
(`cmd.add_option("l", description=...)` in the demo). -/
def shortOnlyOpt : OptionDecl := ⟨some "l", none, "l", none, none⟩

/-- A user option whose target name is `help` although its token is `-x`
(`add_option("x", name="help")`). -/
def xHelpOpt : OptionDecl := ⟨some "x", none, "help", none, none⟩

/-- A root group with a help handler, the implicit help option and the
`-x`-named-`help` option. -/
def xHelpRoot : GroupD := .mk "prog" 0 "" [helpOpt, xHelpOpt] true true [] []

/-- The declared struct type `{name: string, age: int}` of the spec's
struct-parsing example. -/
def credFields : List (String × ArgTy) := [("name", .sStr), ("age", .sInt)]

/-- The `CliResult` state after entering the root of `xHelpRoot` (its
defaults seeded; only the long-named implicit help option is seeded). -/
def xHelpCli0 : CliResult :=
  ⟨none, [("help", helpOpt)], some ("", true), [("help", .VBool false)], [],
   [[("help", .VBool false)]], 0, []⟩

/-- The `CliResult` state after the `-x` flag (target name `help`) has been
parsed: the per-level `help` entry is now truthy. -/
def xHelpCli1 : CliResult :=
  ⟨none, [("help", xHelpOpt)], some ("", true), [("help", .VBool true)], [],
   [[("help", .VBool true)]], 0, []⟩

/-- The state change of `OptionType._parse` on an untyped flag: record
`not self.default` under the full path in the unified namespace, in the
owner's per-level namespace and in the command-options map. -/
def flagStepCli (o : OptionDecl) (lvl : Nat) (path : String) (cli : CliResult) :
    CliResult :=
  { cli with
    ns := dictSet cli.ns (path ++ o.name) (pyNot o.default),
    commandOptions := dictSet cli.commandOptions o.name o,
    levelsNs := modifyAt cli.levelsNs lvl
      (fun d => dictSet d o.name (pyNot o.default)) }

/-- The `CliResult` right after `set_defaults` of `demoRoot` on a fresh
result (no `set_group` yet): both options seeded. -/
def demoRootCli : CliResult :=
  ⟨none, [("help", helpOpt), ("treelevels", treelevelsOpt)], none,
   [("help", .VBool false), ("treelevels", .VInt 7)], [],
   [[("help", .VBool false), ("treelevels", .VInt 7)]], 0, []⟩

/-- The state change of one seeding step of `set_defaults` (write the seed
value under the full path, in the per-level namespace and in the
command-options map). -/
def seedStepCli (o : OptionDecl) (lvl : Nat) (path : String) (cli : CliResult) :
    CliResult :=
  { cli with
    ns := dictSet cli.ns (path ++ o.name) (seedVal o),
    commandOptions := dictSet cli.commandOptions o.name o,
    levelsNs := modifyAt cli.levelsNs lvl
      (fun d => dictSet d o.name (seedVal o)) }

/-- The `CliResult` after entering the root of `c5root` (root defaults
seeded). -/
def c5cliR : CliResult :=
  ⟨none, [("help", helpOpt)], some ("", true), [("help", .VBool false)], [],
   [[("help", .VBool false)]], 0, []⟩

/-- The `CliResult` after entering the command `run` of `c5cmd` (command
defaults seeded, command registered). -/
def c5cliC : CliResult :=
  ⟨some "run.", [("help", helpOpt)], some ("", true),
   [("help", .VBool false), ("run.help", .VBool false)], [],
   [[("help", .VBool false)], [("help", .VBool false)]], 1, []⟩

/-- The `CliResult` after `set_defaults` of the command `run` but before
`set_command` (intermediate state inside `CommandType._parse`). -/
def c5cliCpre : CliResult :=
  ⟨none, [("help", helpOpt)], some ("", true),
   [("help", .VBool false), ("run.help", .VBool false)], [],
   [[("help", .VBool false)], [("help", .VBool false)]], 1, []⟩

/-- The `CliResult` after `set_defaults` of `flagCmd` (before
`set_command`): the long-named flag is seeded `False`. -/
def flagCliCpre : CliResult :=
  ⟨none, [("help", helpOpt), ("flag", flagOpt)], some ("", true),
   [("help", .VBool false), ("run.flag", .VBool false)], [],
   [[("help", .VBool false)], [("flag", .VBool false)]], 1, []⟩

/-- The `CliResult` after entering `flagCmd` (defaults seeded, command
registered). -/
def flagCliC : CliResult :=
  ⟨some "run.", [("help", helpOpt), ("flag", flagOpt)], some ("", true),
   [("help", .VBool false), ("run.flag", .VBool false)], [],
   [[("help", .VBool false)], [("flag", .VBool false)]], 1, []⟩

/-- The `CliResult` after the flag `-f` has been seen at `flagCmd`: the
recorded value is `not None`, i.e. `True`, whatever it was before. -/
def flagCliF : CliResult :=
  ⟨some "run.", [("help", helpOpt), ("flag", flagOpt)], some ("", true),
   [("help", .VBool false), ("run.flag", .VBool true)], [],
   [[("help", .VBool false)], [("flag", .VBool true)]], 1, []⟩

/-! ## Theorems -/

/-- C1: the claim says a typed option whose token is the last at its owner's
level fails with `OptionNoParam`.  In fact the `OptionNoParam` guard in
`parse_option` tests the token slice that still contains the option token
itself, so it can never fire; `OptionType._parse` then evaluates `tokens[0]`
on the empty tail and an uncaught `IndexError` escapes the parser (for both
the short and the long spelling), which is not `OptionNoParam`. -/
theorem C1_typed_option_last_token_crashes :
    errOf (MultiLevelArgParse.parse demoRoot ["-t"] false) = some .pyIndexError ∧
    errOf (MultiLevelArgParse.parse demoRoot ["--treelevels"] false) = some .pyIndexError ∧
    some PErr.pyIndexError ≠ some PErr.optionNoParam :=
  ⟨rfl, rfl, by decide⟩

/-- C4: the claim says looking up a key that is neither a direct entry nor a
prefix of any stored key yields an explicit not-found result distinct from
an empty sub-namespace.  In fact `Namespace.__getitem__` returns an empty
`Namespace` (here `Value.VNs []`), never `None`: the class defines neither
`__bool__` nor `__len__`, so the guard `if not ns: return None` can never
fire (`namespaceTruthy` is constantly `true`) and the empty namespace it
returns is itself truthy. -/
theorem C4_not_found_is_truthy_empty_namespace :
    nsGetItem [("a", .VInt 1)] "zz" = .VNs [] ∧
    namespaceTruthy [] = true ∧
    Value.VNs [] ≠ Value.VNone ∧
    pyTruthy (Value.VNs []) = true :=
  ⟨rfl, rfl, by simp, rfl⟩

/-- C3 counterexample: the claim says the escape character is dropped from
the produced token, so that tokenizing backslash+c gives the token `c`.  In
fact `tokenize` keeps the escape character: the token is backslash+c. -/
theorem C3_counterexample_escape_kept :
    tokenizeDef "\\c" = .ok ["\\c"] ∧ ("\\c" : String) ≠ "c" :=
  ⟨rfl, by decide⟩

/-- C3 (amended): on meeting an escape character (outside a preceding
escape) the tokenizer appends the escape character itself to the buffer and
sets the escape flag; the immediately following character is then appended
literally; so the token produced from backslash+c is backslash+c. -/
theorem C3_escape_char_appended_next_literal :
    (∀ sep grouping escaping quoting (st : TokState) c, st.escape = false →
       c ∈ escaping →
       tokStep sep grouping escaping quoting st c =
         .ok { st with cur := st.cur.push c, escape := true }) ∧
    (∀ sep grouping escaping quoting (st : TokState) c, st.escape = true →
       tokStep sep grouping escaping quoting st c =
         .ok { st with cur := st.cur.push c, escape := false }) ∧
    tokenizeDef "\\c" = .ok ["\\c"] := by
  refine ⟨?_, ?_, rfl⟩
  · intro sep grouping escaping quoting st c h1 h2
    simp [tokStep, h1, h2]
  · intro sep grouping escaping quoting st c h1
    simp [tokStep, h1]

/-- C3 witness: the two step facts at concrete inputs (the scan of the
two-character input backslash+c). -/
theorem C3_escape_witness :
    tokStep none defGrouping defEscaping defQuoting TokState.init '\\' =
      .ok { TokState.init with cur := TokState.init.cur.push '\\', escape := true } ∧
    tokStep none defGrouping defEscaping defQuoting
        ⟨[], [], none, "\\", true⟩ 'c' =
      .ok { tokens := [], groups := [], quoted := none, cur := "\\c", escape := false } :=
  ⟨C3_escape_char_appended_next_literal.1 none defGrouping defEscaping defQuoting
      TokState.init '\\' rfl (by decide),
   C3_escape_char_appended_next_literal.2.1 none defGrouping defEscaping defQuoting
      ⟨[], [], none, "\\", true⟩ 'c' rfl⟩

/-- C7: if the character scan ends with an open group or an open quote,
`tokenize` raises a `ParseExecption` instead of returning tokens; in
particular on the input `two {{x}` (unbalanced group). -/
theorem C7_unbalanced_input_raises :
    (∀ s sep grouping escaping quoting st,
       tokScan sep grouping escaping quoting s = .ok st →
       st.groups ≠ [] ∨ st.quoted.isSome = true →
       tokenize s sep grouping escaping quoting = .error .parseError) ∧
    tokenizeDef "two \x7b\x7bx\x7d" = .error .parseError := by
  refine ⟨?_, rfl⟩
  intro s sep grouping escaping quoting st hscan hor
  unfold tokenize
  rw [hscan]
  by_cases hg : st.groups = []
  · rcases hor with h | h
    · exact absurd hg h
    · simp [Bind.bind, Except.bind, hg, h]
  · simp [Bind.bind, Except.bind, hg]

/-- C7 witness: the scan of `two {{x}` ends with the group stack `['}']`
still open, and the universal part yields the raise. -/
theorem C7_unbalanced_witness :
    tokenize "two \x7b\x7bx\x7d" none defGrouping defEscaping defQuoting = .error .parseError :=
  C7_unbalanced_input_raises.1 "two \x7b\x7bx\x7d" none defGrouping defEscaping defQuoting
    ⟨["two"], ['}'], none, "\x7b\x7bx\x7d", false⟩ rfl (Or.inl (by decide))

/-- C6: while a group or a quote is open, a tokenizer step never flushes a
token — so a bracketed or quoted substring, however deeply nested, is never
split and ends up inside a single token; and the spec's example input
tokenizes to exactly the eight claimed tokens. -/
theorem C6_no_split_inside_group_or_quote :
    (∀ sep (st : TokState) c, st.groups ≠ [] ∨ st.quoted.isSome = true →
       ∃ st', tokStepDef sep st c = .ok st' ∧ st'.tokens = st.tokens) ∧
    tokenizeDef "one two -flag -9 [a,b,c] opt -a arg" =
      .ok ["one", "two", "-flag", "-9", "[a,b,c]", "opt", "-a", "arg"] := by
  refine ⟨?_, rfl⟩
  intro sep st c hor
  have hq : st.groups = [] → st.quoted.isSome = true := by
    intro h
    rcases hor with h' | h'
    · exact absurd h h'
    · exact h'
  unfold tokStepDef tokStep
  by_cases h1 : st.escape = true
  · rw [if_pos h1]
    exact ⟨_, rfl, rfl⟩
  · rw [if_neg h1]
    by_cases h2 : c ∈ defEscaping
    · rw [if_pos h2]
      exact ⟨_, rfl, rfl⟩
    · rw [if_neg h2]
      by_cases h3 : c ∈ defQuoting ∧ st.groups = []
      · rw [if_pos h3]
        exact ⟨_, rfl, rfl⟩
      · rw [if_neg h3]
        by_cases h4 : st.quoted.isSome = true
        · rw [if_pos h4]
          exact ⟨_, rfl, rfl⟩
        · rw [if_neg h4]
          by_cases h5 : c ∈ defGrouping ∧ c ∉ st.groups
          · rw [if_pos h5]
            rcases h5 with ⟨hm, _⟩
            rcases (by simpa [defGrouping] using hm : c = '[' ∨ c = '{') with rfl | rfl
            · exact ⟨_, rfl, rfl⟩
            · exact ⟨_, rfl, rfl⟩
          · rw [if_neg h5]
            by_cases h6 : st.groups.head? = some c
            · rw [if_pos h6]
              exact ⟨_, rfl, rfl⟩
            · rw [if_neg h6]
              by_cases h7 : st.groups = [] ∧ (match sep with
                  | none => pyIsSpace c
                  | some l => decide (c ∈ l)) = true
              · exact absurd (hq h7.1) h4
              · rw [if_neg h7]
                exact ⟨_, rfl, rfl⟩

/-- C6 witness: a step inside an open `[` group (stack `[']']`) on a space
character flushes nothing. -/
theorem C6_no_split_witness :
    ∃ st', tokStepDef none ⟨["x"], [']'], none, "[a", false⟩ ' ' = .ok st' ∧
      st'.tokens = ["x"] :=
  C6_no_split_inside_group_or_quote.1 none ⟨["x"], [']'], none, "[a", false⟩ ' '
    (Or.inl (by decide))

/-- C8: a comma-separated piece of a struct literal that does not split on
`=` into exactly two parts raises `ArgumentTypeError`; a well-formed pair
whose key is not in the declared field map raises `ArgumentKeyError`, a
distinct error kind; and a successful parse of the spec's example struct
type yields a mapping holding only the keys actually supplied, with a
missing declared key (`age`) simply absent. -/
theorem C8_struct_pieces_and_keys :
    (∀ f fields p rest acc kv,
       tokenize p (some ['=']) defGrouping defEscaping defQuoting = .ok kv →
       kv.length ≠ 2 →
       structPieces (f + 1) fields (p :: rest) acc = .error .argumentTypeError) ∧
    (∀ f fields p rest acc k0 v0,
       tokenize p (some ['=']) defGrouping defEscaping defQuoting = .ok [k0, v0] →
       dictGet? fields (mstrip k0) = none →
       structPieces (f + 1) fields (p :: rest) acc = .error .argumentKeyError) ∧
    PErr.argumentKeyError ≠ PErr.argumentTypeError ∧
    structParse 5 credFields "\x7bname=bob, age=5\x7d" =
      .ok (.VNs [("name", .VStr "bob"), ("age", .VInt 5)]) ∧
    structParse 5 credFields "\x7bname=bob\x7d" = .ok (.VNs [("name", .VStr "bob")]) ∧
    dictGet? [("name", Value.VStr "bob")] "age" = none := by
  refine ⟨?_, ?_, by decide, rfl, rfl, rfl⟩
  · intro f fields p rest acc kv htok hlen
    unfold structPieces
    rw [htok]
    simp only [Bind.bind, Except.bind]
    rcases kv with _ | ⟨a, _ | ⟨b, _ | ⟨cc, r⟩⟩⟩
    · rfl
    · rfl
    · simp at hlen
    · rfl
  · intro f fields p rest acc k0 v0 htok hget
    unfold structPieces
    rw [htok]
    simp only [Bind.bind, Except.bind]
    simp only [hget]

/-- C8 witness: the malformed piece `name` (one part) and the unknown-key
piece `stam=5` against the declared `{name, age}` field map. -/
theorem C8_struct_witness :
    structPieces 1 credFields ["name"] [] = .error .argumentTypeError ∧
    structPieces 1 credFields ["stam=5"] [] = .error .argumentKeyError :=
  ⟨C8_struct_pieces_and_keys.1 0 credFields "name" [] [] ["name"] rfl (by decide),
   C8_struct_pieces_and_keys.2.1 0 credFields "stam=5" [] [] "stam" "5" rfl rfl⟩

/-- C9: in `parse_option`, after any successful single option parse at an
owner that declares a help handler, if that owner's per-level `help` entry
is truthy the help handler is invoked immediately (modelled as the
conventional `usage_and_raise_help`), aborting the scan before it continues;
and consequently the whole parse of `-x` — an option whose target name is
`help` but which is not the implicit `-h`/`--help` option — ends in the
help-requested condition. -/
theorem C9_help_checked_after_every_option :
    (∀ f opts lvl path cli optname tokens lng opt cli2 n,
       (if lng then opts.find? (fun o => o.long == some optname)
        else opts.find? (fun o => o.short == some optname)) = some opt →
       (opt.argtype.isSome && tokens.isEmpty) = false →
       OptionType.parse f opt lvl path cli tokens.tail = .ok (cli2, n) →
       pyTruthy (nsGetItem (cli2.levelNs lvl) "help") = true →
       parse_option f opts lvl path true cli optname tokens lng =
         .error (.helpRequired, cli2)) ∧
    errOf (MultiLevelArgParse.parse xHelpRoot ["-x"] false) = some .helpRequired ∧
    xHelpOpt.name = "help" ∧ xHelpOpt.short = some "x" ∧ xHelpOpt.long = none := by
  refine ⟨?_, rfl, rfl, rfl, rfl⟩
  intro f opts lvl path cli optname tokens lng opt cli2 n hfind hguard hparse htruthy
  unfold parse_option
  rw [hfind]
  simp only [hguard, Bool.false_eq_true, if_false, Bind.bind, Except.bind, hparse]
  simp [htruthy]

/-- C9 witness: the universal part applied to the concrete `-x` parse at the
root of `xHelpRoot`. -/
theorem C9_help_witness :
    parse_option 100 [helpOpt, xHelpOpt] 0 "" true xHelpCli0 "x" ["-x"] false =
      .error (.helpRequired, xHelpCli1) :=
  C9_help_checked_after_every_option.1 100 [helpOpt, xHelpOpt] 0 "" xHelpCli0 "x"
    ["-x"] false xHelpOpt xHelpCli1 1 rfl rfl rfl rfl

/-- Setting a key then looking it up yields the written value. -/
theorem dictGet_dictSet_self {α : Type} (d : PyDict α) (k : String) (v : α) :
    dictGet? (dictSet d k v) k = some v := by
  induction d with
  | nil => simp [dictSet, dictGet?]
  | cons kv rest ih =>
    obtain ⟨k', v'⟩ := kv
    by_cases h : k' = k
    · simp [dictSet, dictGet?, h]
    · simp [dictSet, dictGet?, h, ih]

/-- Setting a key leaves the lookup of any other key unchanged. -/
theorem dictGet_dictSet_ne {α : Type} (d : PyDict α) (k q : String) (v : α)
    (h : k ≠ q) : dictGet? (dictSet d k v) q = dictGet? d q := by
  induction d with
  | nil => simp [dictSet, dictGet?, h]
  | cons kv rest ih =>
    obtain ⟨k', v'⟩ := kv
    by_cases h2 : k' = k
    · subst h2
      simp [dictSet, dictGet?, h]
    · by_cases h3 : k' = q <;> simp [dictSet, dictGet?, h2, h3, Ne.symm h, ih]

/-- `modifyAt` at the modified index. -/
theorem modifyAt_get_self {α : Type} (l : List α) (i : Nat) (f : α → α) :
    (modifyAt l i f).get? i = (l.get? i).map f := by
  induction l generalizing i with
  | nil => simp [modifyAt]
  | cons x rest ih =>
    cases i with
    | zero => simp [modifyAt]
    | succ n => simpa [modifyAt] using ih n

/-- `modifyAt` preserves the length. -/
theorem modifyAt_length {α : Type} (l : List α) (i : Nat) (f : α → α) :
    (modifyAt l i f).length = l.length := by
  induction l generalizing i with
  | nil => rfl
  | cons x rest ih =>
    cases i with
    | zero => simp [modifyAt]
    | succ n => simp [modifyAt, ih]

/-- Appending to a common head string is injective. -/
theorem strApp_cancel {p a b : String} (h : p ++ a = p ++ b) : a = b := by
  have h2 := congrArg String.data h
  simp [String.data_append] at h2
  exact String.ext h2

/-- Unfolding of a successful `seedLongs` step. -/
theorem seedLongs_cons (lvl : Nat) (path : String) (o : OptionDecl)
    (rest : List OptionDecl) (cli : CliResult) (h : ¬ lvl > cli.maxLevel) :
    seedLongs lvl path (o :: rest) cli =
      seedLongs lvl path rest (seedStepCli o lvl path cli) := by
  simp [seedLongs, CliResult.setU, CliResult.set_command_options, h,
    seedStepCli, Bind.bind, Except.bind]

/-- A `seedLongs` step at an uninitialized level raises. -/
theorem seedLongs_cons_err (lvl : Nat) (path : String) (o : OptionDecl)
    (rest : List OptionDecl) (cli : CliResult) (h : lvl > cli.maxLevel) :
    ∃ c, seedLongs lvl path (o :: rest) cli = .error (.parseError, c) := by
  simp [seedLongs, CliResult.setU, CliResult.set_command_options, h,
    Bind.bind, Except.bind]

/-- Unfolding of a `seedShortOnly` step that seeds. -/
theorem seedShortOnly_cons_seed (lvl : Nat) (path : String) (o : OptionDecl)
    (rest : List OptionDecl) (cli : CliResult) (h : ¬ lvl > cli.maxLevel)
    (hd : o.default.isSome = true) :
    seedShortOnly lvl path (o :: rest) cli =
      seedShortOnly lvl path rest (seedStepCli o lvl path cli) := by
  simp [seedShortOnly, CliResult.setU, CliResult.set_command_options, h, hd,
    seedStepCli, Bind.bind, Except.bind]

/-- Unfolding of a `seedShortOnly` step that skips (no default). -/
theorem seedShortOnly_cons_skip (lvl : Nat) (path : String) (o : OptionDecl)
    (rest : List OptionDecl) (cli : CliResult) (hd : o.default.isSome = false) :
    seedShortOnly lvl path (o :: rest) cli = seedShortOnly lvl path rest cli := by
  simp [seedShortOnly, hd]

/-- The per-level namespace after a seeding step, at the seeded level. -/
theorem seedStep_levelNs_self (o : OptionDecl) (lvl : Nat) (path : String)
    (cli : CliResult) (hlt : lvl < cli.levelsNs.length) :
    (seedStepCli o lvl path cli).levelNs lvl =
      dictSet (cli.levelNs lvl) o.name (seedVal o) := by
  unfold seedStepCli CliResult.levelNs
  simp only [modifyAt_get_self]
  cases hget : cli.levelsNs.get? lvl with
  | none => exact absurd (List.get?_eq_none.mp hget) (Nat.not_le.mpr hlt)
  | some d => simp

/-- Lookups of other names in the per-level namespace are unchanged by a
seeding step. -/
theorem seedStep_levelNs_ne (o : OptionDecl) (lvl : Nat) (path : String)
    (cli : CliResult) (k : String) (h : o.name ≠ k) :
    dictGet? ((seedStepCli o lvl path cli).levelNs lvl) k =
      dictGet? (cli.levelNs lvl) k := by
  unfold seedStepCli CliResult.levelNs
  simp only [modifyAt_get_self]
  cases hget : cli.levelsNs.get? lvl with
  | none => simp [dictGet?]
  | some d => simp [dictGet_dictSet_ne _ _ _ _ h]

/-- Behaviour of the first `set_defaults` loop: result invariants, frame for
unrelated keys, and the seeded entries (under pairwise-distinct target
names). -/
theorem seedLongs_spec (lvl : Nat) (path : String) :
    ∀ (L : List OptionDecl) (cli cli' : CliResult),
      seedLongs lvl path L cli = .ok cli' →
      (cli'.maxLevel = cli.maxLevel ∧
       cli'.levelsNs.length = cli.levelsNs.length ∧
       cli'.command = cli.command) ∧
      (∀ k, (∀ o ∈ L, path ++ o.name ≠ k) →
        dictGet? cli'.ns k = dictGet? cli.ns k) ∧
      (∀ k, (∀ o ∈ L, o.name ≠ k) →
        dictGet? (cli'.levelNs lvl) k = dictGet? (cli.levelNs lvl) k) ∧
      ((L.map (fun o => o.name)).Nodup → lvl < cli.levelsNs.length →
        ∀ o ∈ L, dictGet? cli'.ns (path ++ o.name) = some (seedVal o) ∧
          dictGet? (cli'.levelNs lvl) o.name = some (seedVal o)) := by
  intro L
  induction L with
  | nil =>
    intro cli cli' h
    simp [seedLongs] at h
    subst h
    refine ⟨⟨rfl, rfl, rfl⟩, fun k _ => rfl, fun k _ => rfl, ?_⟩
    intro _ _ o ho
    exact absurd ho (List.not_mem_nil o)
  | cons o rest ih =>
    intro cli cli' h
    by_cases hl : lvl > cli.maxLevel
    · obtain ⟨c, hc⟩ := seedLongs_cons_err lvl path o rest cli hl
      rw [hc] at h
      exact absurd h (by simp)
    · rw [seedLongs_cons lvl path o rest cli hl] at h
      obtain ⟨⟨hmax, hlen, hcmd⟩, hnsf, hlvf, hseed⟩ :=
        ih (seedStepCli o lvl path cli) cli' h
      have hlen2 : (seedStepCli o lvl path cli).levelsNs.length =
          cli.levelsNs.length := by
        simp [seedStepCli, modifyAt_length]
      refine ⟨⟨hmax, by rw [hlen, hlen2], hcmd⟩, ?_, ?_, ?_⟩
      · intro k hk
        rw [hnsf k (fun q hq => hk q (List.mem_cons_of_mem o hq))]
        exact dictGet_dictSet_ne _ _ _ _ (hk o (List.mem_cons_self o rest))
      · intro k hk
        rw [hlvf k (fun q hq => hk q (List.mem_cons_of_mem o hq))]
        exact seedStep_levelNs_ne o lvl path cli k (hk o (List.mem_cons_self o rest))
      · intro hnd hlt p hp
        have hnd2 := hnd
        rw [List.map_cons, List.nodup_cons] at hnd2
        obtain ⟨hno, hndr⟩ := hnd2
        rcases List.mem_cons.mp hp with rfl | hptail
        · constructor
          · rw [hnsf (path ++ p.name) ?avoid]
            · exact dictGet_dictSet_self _ _ _
            case avoid =>
              intro q hq hqe
              exact hno (List.mem_map.mpr ⟨q, hq, (strApp_cancel hqe).symm ▸ rfl⟩)
          · rw [hlvf p.name ?avoidlv]
            · rw [seedStep_levelNs_self p lvl path cli hlt]
              exact dictGet_dictSet_self _ _ _
            case avoidlv =>
              intro q hq hqe
              exact hno (List.mem_map.mpr ⟨q, hq, hqe⟩)
        · exact hseed hndr (by rw [hlen2]; exact hlt) p hptail

/-- Behaviour of the second `set_defaults` loop: only short-only options
with a non-`None` default are seeded; all other keys are untouched. -/
theorem seedShortOnly_spec (lvl : Nat) (path : String) :
    ∀ (L : List OptionDecl) (cli cli' : CliResult),
      seedShortOnly lvl path L cli = .ok cli' →
      (cli'.maxLevel = cli.maxLevel ∧
       cli'.levelsNs.length = cli.levelsNs.length ∧
       cli'.command = cli.command) ∧
      (∀ k, (∀ o ∈ L, o.default.isSome = true → path ++ o.name ≠ k) →
        dictGet? cli'.ns k = dictGet? cli.ns k) ∧
      (∀ k, (∀ o ∈ L, o.default.isSome = true → o.name ≠ k) →
        dictGet? (cli'.levelNs lvl) k = dictGet? (cli.levelNs lvl) k) ∧
      ((L.map (fun o => o.name)).Nodup → lvl < cli.levelsNs.length →
        ∀ o ∈ L, o.default.isSome = true →
          dictGet? cli'.ns (path ++ o.name) = some (seedVal o) ∧
          dictGet? (cli'.levelNs lvl) o.name = some (seedVal o)) := by
  intro L
  induction L with
  | nil =>
    intro cli cli' h
    simp [seedShortOnly] at h
    subst h
    refine ⟨⟨rfl, rfl, rfl⟩, fun k _ => rfl, fun k _ => rfl, ?_⟩
    intro _ _ o ho
    exact absurd ho (List.not_mem_nil o)
  | cons o rest ih =>
    intro cli cli' h
    by_cases hd : o.default.isSome = true
    · by_cases hl : lvl > cli.maxLevel
      · rw [seedShortOnly] at h
        simp [CliResult.setU, CliResult.set_command_options, hl, hd,
          Bind.bind, Except.bind] at h
      · rw [seedShortOnly_cons_seed lvl path o rest cli hl hd] at h
        obtain ⟨⟨hmax, hlen, hcmd⟩, hnsf, hlvf, hseed⟩ :=
          ih (seedStepCli o lvl path cli) cli' h
        have hlen2 : (seedStepCli o lvl path cli).levelsNs.length =
            cli.levelsNs.length := by
          simp [seedStepCli, modifyAt_length]
        refine ⟨⟨hmax, by rw [hlen, hlen2], hcmd⟩, ?_, ?_, ?_⟩
        · intro k hk
          rw [hnsf k (fun q hq hqd => hk q (List.mem_cons_of_mem o hq) hqd)]
          exact dictGet_dictSet_ne _ _ _ _ (hk o (List.mem_cons_self o rest) hd)
        · intro k hk
          rw [hlvf k (fun q hq hqd => hk q (List.mem_cons_of_mem o hq) hqd)]
          exact seedStep_levelNs_ne o lvl path cli k
            (hk o (List.mem_cons_self o rest) hd)
        · intro hnd hlt p hp hpd
          have hnd2 := hnd
          rw [List.map_cons, List.nodup_cons] at hnd2
          obtain ⟨hno, hndr⟩ := hnd2
          rcases List.mem_cons.mp hp with rfl | hptail
          · constructor
            · rw [hnsf (path ++ p.name) ?avoid]
              · exact dictGet_dictSet_self _ _ _
              case avoid =>
                intro q hq _ hqe
                exact hno (List.mem_map.mpr ⟨q, hq, (strApp_cancel hqe).symm ▸ rfl⟩)
            · rw [hlvf p.name ?avoidlv]
              · rw [seedStep_levelNs_self p lvl path cli hlt]
                exact dictGet_dictSet_self _ _ _
              case avoidlv =>
                intro q hq _ hqe
                exact hno (List.mem_map.mpr ⟨q, hq, hqe⟩)
          · exact hseed hndr (by rw [hlen2]; exact hlt) p hptail hpd
    · have hd2 : o.default.isSome = false := by simpa using hd
      rw [seedShortOnly_cons_skip lvl path o rest cli hd2] at h
      obtain ⟨hinv, hnsf, hlvf, hseed⟩ := ih cli cli' h
      refine ⟨hinv, ?_, ?_, ?_⟩
      · intro k hk
        exact hnsf k (fun q hq hqd => hk q (List.mem_cons_of_mem o hq) hqd)
      · intro k hk
        exact hlvf k (fun q hq hqd => hk q (List.mem_cons_of_mem o hq) hqd)
      · intro hnd hlt p hp hpd
        have hnd2 := hnd
        rw [List.map_cons, List.nodup_cons] at hnd2
        rcases List.mem_cons.mp hp with rfl | hptail
        · exact absurd hpd hd
        · exact hseed hnd2.2 hlt p hptail hpd

/-- C2 counterexample: a declared option with only a short name and no
default (`add_option("l")`, an untyped flag) is not seeded at all by
`set_defaults` — neither the unified namespace nor the per-level namespace
receives the claimed `False` entry (the whole call leaves the fresh result
untouched). -/
theorem C2_counterexample_short_only_unseeded :
    set_defaults 0 "" [shortOnlyOpt] CliResult.init = .ok CliResult.init ∧
    shortOnlyOpt.short = some "l" ∧ shortOnlyOpt.long = none ∧
    shortOnlyOpt.argtype = none ∧ shortOnlyOpt.default = none ∧
    dictGet? CliResult.init.ns "l" = none ∧
    dictGet? (CliResult.init.levelNs 0) "l" = none ∧
    (none : Option Value) ≠ some (.VBool false) :=
  ⟨rfl, rfl, rfl, rfl, rfl, rfl, rfl, by simp⟩

/-- Combined effect of the two `set_defaults` seeding loops on a
post-`init_level` state. -/
theorem seedBoth_spec (lvl : Nat) (path : String) (opts : List OptionDecl)
    (cli1 cli2 cli' : CliResult)
    (hA : seedLongs lvl path (opts.filter fun o => o.long.isSome) cli1 = .ok cli2)
    (hB : seedShortOnly lvl path
      (opts.filter fun o => o.short.isSome && o.long.isNone) cli2 = .ok cli')
    (hnd : (opts.map (fun x => x.name)).Nodup)
    (hlt : lvl < cli1.levelsNs.length)
    (o : OptionDecl) (hmem : o ∈ opts) :
    ((o.long.isSome = true ∨ (o.short.isSome = true ∧ o.default.isSome = true)) →
      dictGet? cli'.ns (path ++ o.name) = some (seedVal o) ∧
      dictGet? (cli'.levelNs lvl) o.name = some (seedVal o)) ∧
    (o.long = none → o.default = none →
      dictGet? cli'.ns (path ++ o.name) = dictGet? cli1.ns (path ++ o.name) ∧
      dictGet? (cli'.levelNs lvl) o.name = dictGet? (cli1.levelNs lvl) o.name) := by
  have hinj := List.inj_on_of_nodup_map hnd
  have hndL : ((opts.filter fun o => o.long.isSome).map
      (fun x => x.name)).Nodup :=
    ((List.filter_sublist opts).map _).nodup hnd
  have hndS : ((opts.filter fun o => o.short.isSome && o.long.isNone).map
      (fun x => x.name)).Nodup :=
    ((List.filter_sublist opts).map _).nodup hnd
  obtain ⟨⟨hmaxA, hlenA, _⟩, hnsA, hlvA, hseedA⟩ :=
    seedLongs_spec lvl path _ cli1 cli2 hA
  obtain ⟨⟨hmaxB, hlenB, _⟩, hnsB, hlvB, hseedB⟩ :=
    seedShortOnly_spec lvl path _ cli2 cli' hB
  have hlt2 : lvl < cli2.levelsNs.length := by rw [hlenA]; exact hlt
  constructor
  · intro hcase
    by_cases hlo : o.long.isSome = true
    · -- seeded by the long loop, untouched by the short-only loop
      have hmemL : o ∈ opts.filter (fun o => o.long.isSome) :=
        List.mem_filter.mpr ⟨hmem, hlo⟩
      obtain ⟨hu, hl⟩ := hseedA hndL hlt o hmemL
      have avoidNs : ∀ q ∈ opts.filter (fun o => o.short.isSome && o.long.isNone),
          q.default.isSome = true → path ++ q.name ≠ path ++ o.name := by
        intro q hq _ he
        obtain ⟨hqo, hqp⟩ := List.mem_filter.mp hq
        have : q = o := hinj hqo hmem (strApp_cancel he)
        subst this
        rw [Bool.and_eq_true] at hqp
        simp [Option.isNone_iff_eq_none.mp hqp.2] at hlo
      have avoidLv : ∀ q ∈ opts.filter (fun o => o.short.isSome && o.long.isNone),
          q.default.isSome = true → q.name ≠ o.name := by
        intro q hq _ he
        obtain ⟨hqo, hqp⟩ := List.mem_filter.mp hq
        have : q = o := hinj hqo hmem he
        subst this
        rw [Bool.and_eq_true] at hqp
        simp [Option.isNone_iff_eq_none.mp hqp.2] at hlo
      exact ⟨by rw [hnsB _ avoidNs]; exact hu, by rw [hlvB _ avoidLv]; exact hl⟩
    · -- short-only with a default: seeded by the second loop
      rcases hcase with hcase | ⟨hsh, hdf⟩
      · exact absurd hcase hlo
      have hmemS : o ∈ opts.filter (fun o => o.short.isSome && o.long.isNone) := by
        refine List.mem_filter.mpr ⟨hmem, ?_⟩
        rw [Bool.and_eq_true]
        exact ⟨hsh, by simp at hlo; simp [hlo]⟩
      exact hseedB hndS hlt2 o hmemS hdf
  · intro hlong hdef
    have avoidL : ∀ q ∈ opts.filter (fun o => o.long.isSome),
        path ++ q.name ≠ path ++ o.name := by
      intro q hq he
      obtain ⟨hqo, hqp⟩ := List.mem_filter.mp hq
      have : q = o := hinj hqo hmem (strApp_cancel he)
      subst this
      simp [hlong] at hqp
    have avoidLlv : ∀ q ∈ opts.filter (fun o => o.long.isSome),
        q.name ≠ o.name := by
      intro q hq he
      obtain ⟨hqo, hqp⟩ := List.mem_filter.mp hq
      have : q = o := hinj hqo hmem he
      subst this
      simp [hlong] at hqp
    have avoidS : ∀ q ∈ opts.filter (fun o => o.short.isSome && o.long.isNone),
        q.default.isSome = true → path ++ q.name ≠ path ++ o.name := by
      intro q hq hqd he
      obtain ⟨hqo, _⟩ := List.mem_filter.mp hq
      have : q = o := hinj hqo hmem (strApp_cancel he)
      subst this
      simp [hdef] at hqd
    have avoidSlv : ∀ q ∈ opts.filter (fun o => o.short.isSome && o.long.isNone),
        q.default.isSome = true → q.name ≠ o.name := by
      intro q hq hqd he
      obtain ⟨hqo, _⟩ := List.mem_filter.mp hq
      have : q = o := hinj hqo hmem he
      subst this
      simp [hdef] at hqd
    constructor
    · rw [hnsB _ avoidS, hnsA _ avoidL]
    · rw [hlvB _ avoidSlv, hlvA _ avoidLlv]

/-- C2 (amended): when parsing enters an owner, `set_defaults` seeds both
the unified namespace (full path + target name) and the per-level namespace
for every option that has a long name, and for every short-only option that
has a non-`None` default (with the default for typed options, `False` for
untyped flags without an explicit default); a short-only option without a
default is left completely unseeded.  And every untyped flag option parsed
from the command line records the logical negation of its declared
default. -/
theorem C2_defaults_seeding_and_flag_negation :
    (∀ lvl path opts cli cli' o,
       set_defaults lvl path opts cli = .ok cli' →
       (opts.map (fun x => x.name)).Nodup →
       cli.levelsNs.length = cli.maxLevel + 1 →
       o ∈ opts →
       ((o.long.isSome = true ∨ (o.short.isSome = true ∧ o.default.isSome = true)) →
         dictGet? cli'.ns (path ++ o.name) = some (seedVal o) ∧
         dictGet? (cli'.levelNs lvl) o.name = some (seedVal o)) ∧
       (o.long = none → o.default = none →
         dictGet? cli'.ns (path ++ o.name) = dictGet? cli.ns (path ++ o.name) ∧
         dictGet? (cli'.levelNs lvl) o.name = dictGet? (cli.levelNs lvl) o.name)) ∧
    (∀ f o lvl path cli tokens, o.argtype = none → ¬ lvl > cli.maxLevel →
       OptionType.parse f o lvl path cli tokens =
         .ok (flagStepCli o lvl path cli, 1) ∧
       dictGet? (flagStepCli o lvl path cli).ns (path ++ o.name) =
         some (pyNot o.default) ∧
       (lvl < cli.levelsNs.length →
         dictGet? ((flagStepCli o lvl path cli).levelNs lvl) o.name =
           some (pyNot o.default))) := by
  constructor
  · intro lvl path opts cli cli' o hsd hnd hlen hmem
    unfold set_defaults at hsd
    by_cases hgt : lvl > cli.maxLevel + 1
    · simp [CliResult.init_level, hgt, Bind.bind, Except.bind] at hsd
    · by_cases hgt2 : lvl > cli.maxLevel
      · -- init_level appends a fresh level namespace; lvl = maxLevel + 1
        simp only [CliResult.init_level, hgt, hgt2, if_true, if_false,
          Bind.bind, Except.bind] at hsd
        set cli1 : CliResult :=
          { cli with levelsNs := cli.levelsNs ++ [[]],
                     maxLevel := cli.maxLevel + 1 } with hcli1
        cases hA : seedLongs lvl path (opts.filter fun o => o.long.isSome) cli1 with
        | error e => rw [hA] at hsd; simp at hsd
        | ok cli2 =>
          rw [hA] at hsd
          simp only [] at hsd
          have hlt : lvl < cli1.levelsNs.length := by
            simp only [hcli1, List.length_append, List.length_cons,
              List.length_nil]
            omega
          have hmain := seedBoth_spec lvl path opts cli1 cli2 cli' hA hsd hnd hlt o hmem
          have hlveq : cli1.levelNs lvl = [] ∧ cli.levelNs lvl = [] := by
            have hl : lvl = cli.levelsNs.length := by omega
            constructor
            · simp only [hcli1, CliResult.levelNs]
              rw [hl, List.get?_concat_length]
              rfl
            · simp only [CliResult.levelNs]
              rw [List.get?_eq_none.mpr (by omega)]
              rfl
          refine ⟨hmain.1, ?_⟩
          intro h1 h2
          obtain ⟨hu, hl⟩ := hmain.2 h1 h2
          refine ⟨hu, ?_⟩
          rw [hl, hlveq.1, hlveq.2]
      · -- level already initialized: init_level is the identity
        simp only [CliResult.init_level, hgt, hgt2, if_true, if_false,
          Bind.bind, Except.bind] at hsd
        cases hA : seedLongs lvl path (opts.filter fun o => o.long.isSome) cli with
        | error e => rw [hA] at hsd; simp at hsd
        | ok cli2 =>
          rw [hA] at hsd
          simp only [] at hsd
          have hlt : lvl < cli.levelsNs.length := by omega
          exact seedBoth_spec lvl path opts cli cli2 cli' hA hsd hnd hlt o hmem
  · intro f o lvl path cli tokens hne hl
    have h1 : OptionType.parse f o lvl path cli tokens =
        .ok (flagStepCli o lvl path cli, 1) := by
      unfold OptionType.parse
      rw [hne]
      simp [CliResult.setU, CliResult.set_command_options, hl, flagStepCli,
        Bind.bind, Except.bind]
    refine ⟨h1, dictGet_dictSet_self _ _ _, ?_⟩
    intro hlt
    show dictGet? ((flagStepCli o lvl path cli).levelNs lvl) o.name = _
    unfold flagStepCli CliResult.levelNs
    simp only [modifyAt_get_self]
    cases hget : cli.levelsNs.get? lvl with
    | none => exact absurd (List.get?_eq_none.mp hget) (Nat.not_le.mpr hlt)
    | some d => simp [dictGet_dictSet_self]

/-- C2 witness: the amended seeding facts at the demo root (`--treelevels`
typed with default 7, the implicit help flag), and the flag-negation fact at
a concrete flag parse. -/
theorem C2_seeding_witness :
    (dictGet? demoRootCli.ns ("" ++ treelevelsOpt.name) = some (seedVal treelevelsOpt) ∧
     dictGet? (demoRootCli.levelNs 0) treelevelsOpt.name = some (seedVal treelevelsOpt)) ∧
    OptionType.parse 0 flagOpt 0 "" CliResult.init ["next"] =
      .ok (flagStepCli flagOpt 0 "" CliResult.init, 1) :=
  ⟨(C2_defaults_seeding_and_flag_negation.1 0 "" [helpOpt, treelevelsOpt]
      CliResult.init demoRootCli treelevelsOpt rfl (by decide) rfl
      (by simp)).1 (Or.inl rfl),
   (C2_defaults_seeding_and_flag_negation.2 0 flagOpt 0 "" CliResult.init
      ["next"] rfl (by decide)).1⟩

/-- Scanning plain tokens at a command while enough positional slots remain:
each token is bound to the next argument; the matched command and the
unparsed-token list are untouched. -/
theorem cmdScan_plain_fits (argNames : List String) :
    ∀ (ts : List String) (f argnum : Nat) (cli : CliResult),
      (∀ t ∈ ts, isPlain t = true) →
      ts.length < f →
      argnum + ts.length ≤ argNames.length →
      ∃ cli', cmdScan f (c5cmd argNames) cli argnum ts =
          .ok (cli', argnum + ts.length, ts.length) ∧
        cli'.command = cli.command ∧ cli'.leftTokens = cli.leftTokens := by
  intro ts
  induction ts with
  | nil =>
    intro f argnum cli _ hf _
    obtain ⟨f', rfl⟩ : ∃ f', f = f' + 1 := ⟨f - 1, by omega⟩
    exact ⟨cli, rfl, rfl, rfl⟩
  | cons t rest ih =>
    intro f argnum cli hpl hf hle
    rw [List.length_cons] at hf hle
    obtain ⟨f', rfl⟩ : ∃ f', f = f' + 1 := ⟨f - 1, by omega⟩
    have hp := hpl t (List.mem_cons_self t rest)
    unfold isPlain at hp
    rw [Bool.and_eq_true, Bool.not_eq_true', Bool.not_eq_true'] at hp
    obtain ⟨hp1, hp2⟩ := hp
    cases hg : argNames.get? argnum with
    | none =>
      have := List.get?_eq_none.mp hg
      omega
    | some nm =>
      have harg : (argNames.map strArg).get? argnum = some (strArg nm) := by
        rw [List.get?_map, hg]
        rfl
      obtain ⟨cli', hsc, hcm, hlf⟩ := ih f' (argnum + 1)
        ({ cli with
            ns := dictSet cli.ns ("run." ++ nm) (.VStr (mstrip t)),
            argsNs := dictSet cli.argsNs nm (.VStr (mstrip t)) })
        (fun q hq => hpl q (List.mem_cons_of_mem t hq)) (by omega) (by omega)
      refine ⟨cli', ?_, hcm, hlf⟩
      rw [show (argnum + (t :: rest).length) = (argnum + 1) + rest.length by
        rw [List.length_cons]; omega]
      rw [show ((t :: rest).length : Nat) = 1 + rest.length by
        rw [List.length_cons]; omega]
      simp only [cmdScan, hp1, hp2, Bool.false_eq_true, if_false, c5cmd,
        harg, ArgType.parseArg, strArg, CliResult.setU,
        CliResult.add_command_arg, Bind.bind, Except.bind]
      rw [List.drop_zero]
      rw [show (⟨"run", 1, "run.", [helpOpt], List.map strArg argNames, true⟩ :
          CommandD) = c5cmd argNames from rfl]
      rw [hsc]

/-- Scanning plain tokens at a command once the positional slots run out:
the first token beyond the last slot is an unknown token; the remaining
slice is recorded as unparsed. -/
theorem cmdScan_plain_overflow (argNames : List String) :
    ∀ (ts : List String) (f argnum : Nat) (cli : CliResult),
      (∀ t ∈ ts, isPlain t = true) →
      ts.length < f →
      argnum ≤ argNames.length →
      argNames.length < argnum + ts.length →
      ∃ cli', cmdScan f (c5cmd argNames) cli argnum ts =
          .error (.unknownToken, cli') ∧
        cli'.command = cli.command ∧
        cli'.leftTokens = ts.drop (argNames.length - argnum) := by
  intro ts
  induction ts with
  | nil =>
    intro f argnum cli _ _ hle hover
    simp at hover
    omega
  | cons t rest ih =>
    intro f argnum cli hpl hf hle hover
    rw [List.length_cons] at hf hover
    obtain ⟨f', rfl⟩ : ∃ f', f = f' + 1 := ⟨f - 1, by omega⟩
    have hp := hpl t (List.mem_cons_self t rest)
    unfold isPlain at hp
    rw [Bool.and_eq_true, Bool.not_eq_true', Bool.not_eq_true'] at hp
    obtain ⟨hp1, hp2⟩ := hp
    by_cases heq : argnum = argNames.length
    · subst heq
      have harg : (argNames.map strArg).get? argNames.length = none := by
        rw [List.get?_map, List.get?_eq_none.mpr (le_refl _)]
        rfl
      refine ⟨cli.set_unparsed_tokens (t :: rest), ?_, rfl, ?_⟩
      · simp only [cmdScan, hp1, hp2, Bool.false_eq_true, if_false, c5cmd, harg]
      · rw [Nat.sub_self, List.drop_zero]
        rfl
    · have hlt : argnum < argNames.length := by omega
      cases hg : argNames.get? argnum with
      | none =>
        have := List.get?_eq_none.mp hg
        omega
      | some nm =>
        have harg : (argNames.map strArg).get? argnum = some (strArg nm) := by
          rw [List.get?_map, hg]
          rfl
        obtain ⟨cli', hsc, hcm, hlf⟩ := ih f' (argnum + 1)
          ({ cli with
              ns := dictSet cli.ns ("run." ++ nm) (.VStr (mstrip t)),
              argsNs := dictSet cli.argsNs nm (.VStr (mstrip t)) })
          (fun q hq => hpl q (List.mem_cons_of_mem t hq)) (by omega) (by omega)
          (by omega)
        refine ⟨cli', ?_, hcm, ?_⟩
        · simp only [cmdScan, hp1, hp2, Bool.false_eq_true, if_false, c5cmd,
            harg, ArgType.parseArg, strArg, CliResult.setU,
            CliResult.add_command_arg, Bind.bind, Except.bind]
          rw [List.drop_zero]
          rw [show (⟨"run", 1, "run.", [helpOpt], List.map strArg argNames, true⟩ :
              CommandD) = c5cmd argNames from rfl]
          rw [hsc]
        · rw [hlf]
          rw [show argNames.length - argnum = (argNames.length - (argnum + 1)) + 1
            by omega]
          rfl

/-- A command invoked on fewer plain tokens than declared arguments raises
`CommandMissingArguments`. -/
theorem c5_cmd_missing (argNames ts : List String) (f : Nat)
    (hpl : ∀ t ∈ ts, isPlain t = true) (hf : ts.length < f)
    (hlt : ts.length < argNames.length) :
    ∃ cli', CommandType.parse f (c5cmd argNames) c5cliR ts =
        .error (.commandMissingArguments, cli') ∧ cli'.command = some "run." := by
  obtain ⟨cli', hsc, hcm, _⟩ :=
    cmdScan_plain_fits argNames ts f 0 c5cliC hpl hf (by omega)
  refine ⟨cli', ?_, by rw [hcm]; rfl⟩
  unfold CommandType.parse
  rw [show (set_defaults (c5cmd argNames).level (c5cmd argNames).path
      (c5cmd argNames).opts c5cliR) = .ok c5cliCpre from rfl]
  simp only [Bind.bind, Except.bind]
  rw [show c5cliCpre.set_command (c5cmd argNames).path = c5cliC from rfl]
  rw [hsc]
  simp only []
  rw [show (c5cmd argNames).args.length = argNames.length from by simp [c5cmd]]
  rw [if_pos (by omega : 0 + ts.length < argNames.length)]

/-- A command invoked on exactly as many plain tokens as declared arguments
succeeds. -/
theorem c5_cmd_exact (argNames ts : List String) (f : Nat)
    (hpl : ∀ t ∈ ts, isPlain t = true) (hf : ts.length < f)
    (heq : ts.length = argNames.length) :
    ∃ cli', CommandType.parse f (c5cmd argNames) c5cliR ts =
        .ok (cli', 1 + ts.length) ∧ cli'.command = some "run." := by
  obtain ⟨cli', hsc, hcm, _⟩ :=
    cmdScan_plain_fits argNames ts f 0 c5cliC hpl hf (by omega)
  refine ⟨cli', ?_, by rw [hcm]; rfl⟩
  unfold CommandType.parse
  rw [show (set_defaults (c5cmd argNames).level (c5cmd argNames).path
      (c5cmd argNames).opts c5cliR) = .ok c5cliCpre from rfl]
  simp only [Bind.bind, Except.bind]
  rw [show c5cliCpre.set_command (c5cmd argNames).path = c5cliC from rfl]
  rw [hsc]
  simp only []
  rw [show (c5cmd argNames).args.length = argNames.length from by simp [c5cmd]]
  rw [if_neg (by omega : ¬ 0 + ts.length < argNames.length)]

/-- A command invoked with one extra plain token beyond its declared
arguments raises `UnknownToken`, recording the extra token as unparsed. -/
theorem c5_cmd_extra (argNames ts : List String) (f : Nat)
    (hpl : ∀ t ∈ ts, isPlain t = true) (hf : ts.length < f)
    (heq : ts.length = argNames.length + 1) :
    ∃ cli', CommandType.parse f (c5cmd argNames) c5cliR ts =
        .error (.unknownToken, cli') ∧ cli'.command = some "run." ∧
        cli'.leftTokens = ts.drop argNames.length := by
  obtain ⟨cli', hsc, hcm, hlf⟩ :=
    cmdScan_plain_overflow argNames ts f 0 c5cliC hpl hf (by omega) (by omega)
  refine ⟨cli', ?_, by rw [hcm]; rfl, by rw [hlf, Nat.sub_zero]⟩
  unfold CommandType.parse
  rw [show (set_defaults (c5cmd argNames).level (c5cmd argNames).path
      (c5cmd argNames).opts c5cliR) = .ok c5cliCpre from rfl]
  simp only [Bind.bind, Except.bind]
  rw [show c5cliCpre.set_command (c5cmd argNames).path = c5cliC from rfl]
  rw [hsc]

/-- Entering `c5root` on `run …`: a successful command parse that consumed
all remaining tokens yields a successful group parse. -/
theorem c5_enter_root_ok (argNames ts : List String) (f : Nat)
    (cli2 : CliResult) (n : Nat)
    (h : CommandType.parse (f + 1) (c5cmd argNames) c5cliR ts = .ok (cli2, n))
    (hn : ts.length ≤ n - 1) :
    GroupType.parse (f + 2) (c5root argNames) CliResult.init ("run" :: ts) =
      .ok (cli2, 1 + (n + 0)) := by
  unfold GroupType.parse
  simp only [Bind.bind, Except.bind]
  rw [show (set_defaults (c5root argNames).level (c5root argNames).path
      (c5root argNames).opts (CliResult.init.set_group (c5root argNames).path
        (c5root argNames).defaultfn)) = .ok c5cliR from rfl]
  have hfg : (c5root argNames).groups.find? (fun x => x.name == "run") = none := rfl
  have hfc : (c5root argNames).cmds.find? (fun x => x.name == "run") =
      some (c5cmd argNames) := rfl
  simp only [grpScan, show strHasPref "run" "--" = false from by decide,
    show strHasPref "run" "-" = false from by decide, Bool.false_eq_true,
    if_false, hfg, hfc, h, Bind.bind, Except.bind]
  rw [List.drop_eq_nil_of_le hn]
  simp only [grpScan]

/-- Entering `c5root` on `run …`: a failing command parse propagates the
raise unchanged. -/
theorem c5_enter_root_err (argNames ts : List String) (f : Nat) (e : PErr)
    (cli2 : CliResult)
    (h : CommandType.parse (f + 1) (c5cmd argNames) c5cliR ts = .error (e, cli2)) :
    GroupType.parse (f + 2) (c5root argNames) CliResult.init ("run" :: ts) =
      .error (e, cli2) := by
  unfold GroupType.parse
  simp only [Bind.bind, Except.bind]
  rw [show (set_defaults (c5root argNames).level (c5root argNames).path
      (c5root argNames).opts (CliResult.init.set_group (c5root argNames).path
        (c5root argNames).defaultfn)) = .ok c5cliR from rfl]
  have hfg : (c5root argNames).groups.find? (fun x => x.name == "run") = none := rfl
  have hfc : (c5root argNames).cmds.find? (fun x => x.name == "run") =
      some (c5cmd argNames) := rfl
  simp only [grpScan, show strHasPref "run" "--" = false from by decide,
    show strHasPref "run" "-" = false from by decide, Bool.false_eq_true,
    if_false, hfg, hfc, h, Bind.bind, Except.bind]

/-- `parse` re-raises any condition other than `UnknownToken` even in
partial mode: only `UnknownToken` is swallowed. -/
theorem parse_err_not_unknown (root : GroupD) (toks : List String) (e : PErr)
    (cli : CliResult)
    (h : GroupType.parse (toks.length + 100) root CliResult.init toks =
      .error (e, cli))
    (hne : e ≠ .unknownToken) (pt : Bool) :
    MultiLevelArgParse.parse root toks pt = .error (e, cli) := by
  unfold MultiLevelArgParse.parse
  rw [h]
  simp [hne]

/-- `parse` in non-partial mode re-raises every condition. -/
theorem parse_nonpartial_err (root : GroupD) (toks : List String) (e : PErr)
    (cli : CliResult)
    (h : GroupType.parse (toks.length + 100) root CliResult.init toks =
      .error (e, cli)) :
    MultiLevelArgParse.parse root toks false = .error (e, cli) := by
  unfold MultiLevelArgParse.parse
  rw [h]
  simp

/-- A successful group parse with a matched command is returned as-is. -/
theorem parse_ok_with_command (root : GroupD) (toks : List String)
    (cli : CliResult) (n : Nat)
    (h : GroupType.parse (toks.length + 100) root CliResult.init toks =
      .ok (cli, n))
    (hcmd : cli.command.isNone = false) (pt : Bool) :
    MultiLevelArgParse.parse root toks pt = .ok cli := by
  unfold MultiLevelArgParse.parse
  rw [h]
  simp [hcmd]

/-- In partial mode an `UnknownToken` raise is swallowed and the result
built so far (here: with a matched command) is returned. -/
theorem parse_partial_unknown (root : GroupD) (toks : List String)
    (cli : CliResult)
    (h : GroupType.parse (toks.length + 100) root CliResult.init toks =
      .error (.unknownToken, cli))
    (hcmd : cli.command.isNone = false) :
    MultiLevelArgParse.parse root toks true = .ok cli := by
  unfold MultiLevelArgParse.parse
  rw [h]
  simp [hcmd]

/-- C5: invoking the command `run` (declared string arguments `argNames`)
with fewer plain positional tokens than declared raises
`CommandMissingArguments`; with exactly the declared count it succeeds; with
one extra trailing token it raises `UnknownToken` in non-partial mode, while
in partial mode `parse()` still returns the result built so far with the
trailing token recorded in the unparsed list — and `UnknownToken` is the
only error kind partial mode swallows. -/
theorem C5_command_completeness_modes :
    (∀ (argNames ts : List String), (∀ t ∈ ts, isPlain t = true) →
      (ts.length < argNames.length →
        ∃ cli, MultiLevelArgParse.parse (c5root argNames) ("run" :: ts) false =
          .error (.commandMissingArguments, cli)) ∧
      (ts.length = argNames.length →
        ∃ cli, MultiLevelArgParse.parse (c5root argNames) ("run" :: ts) false =
          .ok cli) ∧
      (ts.length = argNames.length + 1 →
        (∃ cli, MultiLevelArgParse.parse (c5root argNames) ("run" :: ts) false =
            .error (.unknownToken, cli) ∧
          cli.leftTokens = ts.drop argNames.length) ∧
        (∃ cli, MultiLevelArgParse.parse (c5root argNames) ("run" :: ts) true =
            .ok cli ∧ cli.leftTokens = ts.drop argNames.length))) ∧
    (∀ (root : GroupD) (toks : List String) (e : PErr) (cli : CliResult),
      GroupType.parse (toks.length + 100) root CliResult.init toks =
        .error (e, cli) → e ≠ .unknownToken →
      MultiLevelArgParse.parse root toks true = .error (e, cli)) := by
  constructor
  · intro argNames ts hpl
    refine ⟨?_, ?_, ?_⟩
    · intro hlt
      obtain ⟨cli', hcp, hcm⟩ :=
        c5_cmd_missing argNames ts (ts.length + 100) hpl (by omega) hlt
      have hg := c5_enter_root_err argNames ts (ts.length + 99)
        .commandMissingArguments cli' hcp
      exact ⟨cli', parse_nonpartial_err (c5root argNames) ("run" :: ts)
        .commandMissingArguments cli' hg⟩
    · intro heq
      obtain ⟨cli', hcp, hcm⟩ :=
        c5_cmd_exact argNames ts (ts.length + 100) hpl (by omega) heq
      have hg := c5_enter_root_ok argNames ts (ts.length + 99) cli'
        (1 + ts.length) hcp (by omega)
      exact ⟨cli', parse_ok_with_command (c5root argNames) ("run" :: ts) cli' _
        hg (by rw [hcm]; rfl) false⟩
    · intro heq
      obtain ⟨cli', hcp, hcm, hlf⟩ :=
        c5_cmd_extra argNames ts (ts.length + 100) hpl (by omega) heq
      have hg := c5_enter_root_err argNames ts (ts.length + 99)
        .unknownToken cli' hcp
      exact ⟨⟨cli', parse_nonpartial_err (c5root argNames) ("run" :: ts)
                .unknownToken cli' hg, hlf⟩,
             ⟨cli', parse_partial_unknown (c5root argNames) ("run" :: ts) cli'
                hg (by rw [hcm]; rfl), hlf⟩⟩
  · intro root toks e cli h hne
    exact parse_err_not_unknown root toks e cli h hne true

/-- C5 witness: the three scenarios at the concrete command `run <name>`. -/
theorem C5_completeness_witness :
    (∃ cli, MultiLevelArgParse.parse (c5root ["name"]) ["run"] false =
        .error (.commandMissingArguments, cli)) ∧
    (∃ cli, MultiLevelArgParse.parse (c5root ["name"]) ["run", "a"] false =
        .ok cli) ∧
    (∃ cli, MultiLevelArgParse.parse (c5root ["name"]) ["run", "a", "b"] true =
        .ok cli ∧ cli.leftTokens = ["a", "b"].drop 1) :=
  ⟨(C5_command_completeness_modes.1 ["name"] []
      (fun t ht => absurd ht (List.not_mem_nil t))).1 (by decide),
   (C5_command_completeness_modes.1 ["name"] ["a"] (by decide)).2.1
      (by decide),
   ((C5_command_completeness_modes.1 ["name"] ["a", "b"] (by decide)).2.2
      (by decide)).2⟩

/-- One `-f` step of the command scan from the freshly-entered state reaches
the flagged state. -/
theorem flag_parse_option_first (f : Nat) (rest : List String) :
    parse_option f flagCmd.opts flagCmd.level flagCmd.path flagCmd.helpfn
      flagCliC "f" ("-f" :: rest) false = .ok (flagCliF, 1) := rfl

/-- A further `-f` step from the flagged state stays in the flagged state:
the recorded value is `not self.default`, independent of the current
value. -/
theorem flag_parse_option_again (f : Nat) (rest : List String) :
    parse_option f flagCmd.opts flagCmd.level flagCmd.path flagCmd.helpfn
      flagCliF "f" ("-f" :: rest) false = .ok (flagCliF, 1) := rfl

/-- Scanning `n` repetitions of `-f` from the flagged state consumes them
all and stays in the flagged state. -/
theorem flag_scan_replicate :
    ∀ (n f : Nat), n < f →
      cmdScan f flagCmd flagCliF 0 (List.replicate n "-f") =
        .ok (flagCliF, 0, n) := by
  intro n
  induction n with
  | zero =>
    intro f hf
    obtain ⟨f', rfl⟩ : ∃ f', f = f' + 1 := ⟨f - 1, by omega⟩
    rfl
  | succ m ih =>
    intro f hf
    obtain ⟨f', rfl⟩ : ∃ f', f = f' + 1 := ⟨f - 1, by omega⟩
    rw [List.replicate_succ]
    simp only [cmdScan, show strHasPref "-f" "--" = false from by decide,
      show strHasPref "-f" "-" = true from by decide, Bool.false_eq_true,
      if_false, if_true, show ("-f" : String).drop 1 = "f" from by decide,
      flag_parse_option_again, Bind.bind, Except.bind]
    rw [List.drop_zero, ih f' (by omega)]
    show Except.ok (flagCliF, 0, 1 + m) =
      (Except.ok (flagCliF, 0, m + 1) : Except (PErr × CliResult) _)
    rw [Nat.add_comm 1 m]

/-- Parsing the command `run` of `flagRoot` on `n + 1` repetitions of `-f`
ends in the flagged state, whatever `n` is. -/
theorem flag_cmd_replicate (m f : Nat) (hf : m < f) :
    CommandType.parse (f + 1) flagCmd c5cliR (List.replicate (m + 1) "-f") =
      .ok (flagCliF, 1 + (1 + m)) := by
  unfold CommandType.parse
  rw [show (set_defaults flagCmd.level flagCmd.path flagCmd.opts c5cliR) =
    .ok flagCliCpre from rfl]
  simp only [Bind.bind, Except.bind]
  rw [show flagCliCpre.set_command flagCmd.path = flagCliC from rfl]
  rw [List.replicate_succ]
  simp only [cmdScan, show strHasPref "-f" "--" = false from by decide,
    show strHasPref "-f" "-" = true from by decide, Bool.false_eq_true,
    if_false, if_true, show ("-f" : String).drop 1 = "f" from by decide,
    flag_parse_option_first, Bind.bind, Except.bind]
  rw [List.drop_zero, flag_scan_replicate m f hf]
  rfl

/-- Entering `flagRoot` on `run …`: a successful command parse that consumed
everything yields a successful group parse. -/
theorem flag_enter_root_ok (ts : List String) (f : Nat) (cli2 : CliResult)
    (n : Nat)
    (h : CommandType.parse (f + 1) flagCmd c5cliR ts = .ok (cli2, n))
    (hn : ts.length ≤ n - 1) :
    GroupType.parse (f + 2) flagRoot CliResult.init ("run" :: ts) =
      .ok (cli2, 1 + (n + 0)) := by
  unfold GroupType.parse
  simp only [Bind.bind, Except.bind]
  rw [show (set_defaults flagRoot.level flagRoot.path flagRoot.opts
      (CliResult.init.set_group flagRoot.path flagRoot.defaultfn)) =
    .ok c5cliR from rfl]
  have hfg : flagRoot.groups.find? (fun x => x.name == "run") = none := rfl
  have hfc : flagRoot.cmds.find? (fun x => x.name == "run") = some flagCmd := rfl
  simp only [grpScan, show strHasPref "run" "--" = false from by decide,
    show strHasPref "run" "-" = false from by decide, Bool.false_eq_true,
    if_false, hfg, hfc, h, Bind.bind, Except.bind]
  rw [List.drop_eq_nil_of_le hn]
  simp only [grpScan]

/-- C10: repeating an untyped flag is idempotent — for every `n ≥ 1` the
whole parse of `run` followed by `n` copies of `-f` returns exactly the same
result as with a single `-f` (each occurrence records the negation of the
declared default, independent of the value currently recorded). -/
theorem C10_flag_repetition_idempotent :
    ∀ n, 1 ≤ n →
      MultiLevelArgParse.parse flagRoot ("run" :: List.replicate n "-f") false =
        MultiLevelArgParse.parse flagRoot ["run", "-f"] false := by
  intro n hn
  obtain ⟨m, rfl⟩ : ∃ m, n = m + 1 := ⟨n - 1, by omega⟩
  have hcmd := flag_cmd_replicate m (m + 100) (by omega)
  have hroot := flag_enter_root_ok (List.replicate (m + 1) "-f") (m + 100)
    flagCliF (1 + (1 + m)) hcmd
    (by rw [List.length_replicate]; omega)
  have hL : MultiLevelArgParse.parse flagRoot
      ("run" :: List.replicate (m + 1) "-f") false = .ok flagCliF := by
    have hfuel : ("run" :: List.replicate (m + 1) "-f").length + 100 =
        (m + 100) + 2 := by
      rw [List.length_cons, List.length_replicate]
    exact parse_ok_with_command flagRoot ("run" :: List.replicate (m + 1) "-f")
      flagCliF (1 + (1 + (1 + m) + 0)) (by rw [hfuel]; exact hroot) rfl false
  rw [hL]
  exact rfl

/-- C10 witness: three repetitions collapse to one. -/
theorem C10_flag_repetition_witness :
    MultiLevelArgParse.parse flagRoot ["run", "-f", "-f", "-f"] false =
      MultiLevelArgParse.parse flagRoot ["run", "-f"] false :=
  C10_flag_repetition_idempotent 3 (by decide)

end MLCli
